import Mathlib

/-!
Shallow embedding of the candidate-discovery and stylesheet-assembly engine
of this repository (the JIT `expandTailwindAtRules` pass and its helpers).

Conventions of the embedding:
- JavaScript strings are Lean `String`s; JS `String.prototype.trim`,
  `split('\n')` and the `<` comparator of `Array.prototype.sort` are
  re-implemented structurally over `List Char` so that every definition
  is kernel-executable.
- JS `Set`s (insertion-ordered, deduplicated) are Lean lists maintained
  with `setInsert` (append if absent).
- JS objects used as string-keyed maps are association lists.
- JS function values whose only relevant property is their identity
  (user-supplied transformers/extractors) are represented by tagged
  inductive values carrying a numeric id; their behaviour is supplied
  by oracle functions in `Oracles`.
- PostCSS nodes are flat `Node` records with a numeric `id` standing for
  JS object identity; the host document is a list of nodes.
-/

namespace TW

/-- Whitespace test used by line trimming (models `String.prototype.trim`). -/
def isWs (c : Char) : Bool :=
  c = ' ' || c = '\t' || c = '\n' || c = '\r' || c = '\x0c' || c = '\x0b'

/-- Trim whitespace from both ends of a character list (JS `line.trim()`). -/
def trimChars (cs : List Char) : List Char :=
  ((cs.dropWhile isWs).reverse.dropWhile isWs).reverse

/-- Split a character list at newline characters (JS `content.split('\n')`). -/
def splitLines : List Char → List (List Char)
  | [] => [[]]
  | c :: cs =>
    let rest := splitLines cs
    if c = '\n' then [] :: rest
    else
      match rest with
      | [] => [[c]]
      | l :: ls => (c :: l) :: ls

/-- Trimmed form of a whole string (JS `line.trim()` on a line). -/
def trimStr (s : String) : String :=
  String.mk (trimChars s.data)

/-- Lexicographic `≤` over code points; models the comparator
`(a, z) => a === z ? 0 : a < z ? -1 : 1` used to sort candidates. -/
def lexLe : List Char → List Char → Bool
  | [], _ => true
  | _ :: _, [] => false
  | a :: as, b :: bs =>
    if a < b then true
    else if b < a then false
    else lexLe as bs

/-- String comparison relation backing the candidate sort. -/
def strLe (a b : String) : Prop :=
  lexLe a.data b.data = true

/-- Decidability of `strLe`. -/
def strLeDec : DecidableRel strLe := fun _ _ => instDecidableEqBool _ _

/-- Insert into a JS `Set` modelled as an insertion-ordered duplicate-free
list: append if the element is not present (`set.add(x)`). -/
def setInsert {α : Type} [DecidableEq α] (l : List α) (x : α) : List α :=
  if x ∈ l then l else l ++ [x]

/-- Add every element of `xs` to the set `l`, in order (a loop of `add`s). -/
def setUnion {α : Type} [DecidableEq α] (l : List α) (xs : List α) : List α :=
  xs.foldl setInsert l

/-- Lookup in an association list (a JS object or `Map` used as a map). -/
def alookup {α β : Type} [DecidableEq α] : List (α × β) → α → Option β
  | [], _ => none
  | (k2, v) :: rest, k => if k2 = k then some v else alookup rest k

/-- Extractor values, distinguished by JS function identity.
`custom id` is a user-configured function from `content.extract`;
`rawDefault` is the bare `builtInExtractors.DEFAULT` module function
(reachable only via the `builtInExtractors[fileExtension]` lookup, which
succeeds only for the literal extension string "DEFAULT"); `markedDefault`
is `Object.assign(builtInExtractors.DEFAULT(context), { DEFAULT_EXTRACTOR:
true })`, the only value carrying the default-extractor marker. -/
inductive Extractor where
  | custom (id : Nat)
  | rawDefault
  | markedDefault
deriving DecidableEq, Repr

/-- Transformer values, distinguished by JS function identity.
`builtinDefault` is `builtInTransformers.DEFAULT` (the identity function);
`builtinSvelte` is the built-in `svelte` transformer; `custom id` is a
user-configured function from `content.transform`. -/
inductive Transformer where
  | custom (id : Nat)
  | builtinDefault
  | builtinSvelte
deriving DecidableEq, Repr

/-- Configuration surface consumed by the pass: the `content.extract` and
`content.transform` maps (user functions keyed by file extension,
represented by their ids) and the `oxideParser` feature flag. -/
structure TailwindConfig where
  extract : List (String × Nat) := []
  transform : List (String × Nat) := []
  oxideParser : Bool := false
deriving DecidableEq, Repr

/-- Modelled from the spec: `flagEnabled` lives in `featureFlags.js`, which
is outside `src/`; the spec describes it as "a feature flag enabling the
fast scan path" read from the configuration, so it is modelled as reading
the `oxideParser` field of the configuration. -/
def flagEnabled (cfg : TailwindConfig) (flag : String) : Bool :=
  flag = "oxideParser" && cfg.oxideParser

/-- Resolution chain of `getExtractor`:
`extractors[fileExtension] || extractors.DEFAULT ||
builtInExtractors[fileExtension] || marked default`.
`builtInExtractors` has the single key "DEFAULT", so its per-extension
lookup produces the raw (unmarked) default extractor exactly when the
extension string is "DEFAULT". -/
def getExtractor (cfg : TailwindConfig) (fileExtension : String) : Extractor :=
  match alookup cfg.extract fileExtension with
  | some f => .custom f
  | none =>
    match alookup cfg.extract "DEFAULT" with
    | some f => .custom f
    | none =>
      if fileExtension = "DEFAULT" then .rawDefault
      else .markedDefault

/-- Resolution chain of `getTransformer`:
`transformers[fileExtension] || transformers.DEFAULT ||
builtInTransformers[fileExtension] || builtInTransformers.DEFAULT`.
`builtInTransformers` has keys "DEFAULT" and "svelte", so the
per-extension builtin lookup yields the svelte transformer for extension
"svelte" and the default transformer for extension "DEFAULT". -/
def getTransformer (cfg : TailwindConfig) (fileExtension : String) : Transformer :=
  match alookup cfg.transform fileExtension with
  | some f => .custom f
  | none =>
    match alookup cfg.transform "DEFAULT" with
    | some f => .custom f
    | none =>
      if fileExtension = "svelte" then .builtinSvelte
      else .builtinDefault

/-- Test `extractor?.DEFAULT_EXTRACTOR === true`: only the marked default
extractor carries the marker property. -/
def hasDefaultMarker : Extractor → Bool
  | .markedDefault => true
  | _ => false

/-- Pending content item: the text (file contents are modelled as already
read) plus the file extension used to resolve transformer and extractor. -/
structure ContentItem where
  content : String
  extension : String
deriving DecidableEq, Repr

/-- Routing condition of the scan router (lines 179-183 of
`expandTailwindAtRules.js`): oxide flag on, transformer is identical to
the built-in default, and the extractor carries the default marker. -/
def shouldUseOxidePath (cfg : TailwindConfig) (item : ContentItem) : Bool :=
  flagEnabled cfg "oxideParser" &&
    getTransformer cfg item.extension == Transformer.builtinDefault &&
    hasDefaultMarker (getExtractor cfg item.extension)

/-- Routing loop over `context.changedContent` (lines 175-189): each item
goes to the oxide (rust) queue when `shouldUseOxidePath` holds, otherwise
to the regex queue paired with its resolved transformer and extractor. -/
def routeContent (cfg : TailwindConfig) (items : List ContentItem) :
    List ContentItem × List (ContentItem × Transformer × Extractor) :=
  items.foldl
    (fun acc item =>
      let transformer := getTransformer cfg item.extension
      let extractor := getExtractor cfg item.extension
      if flagEnabled cfg "oxideParser" &&
          transformer == Transformer.builtinDefault &&
          hasDefaultMarker extractor then
        (acc.1 ++ [item], acc.2)
      else
        (acc.1, acc.2 ++ [(item, transformer, extractor)]))
    ([], [])

/-- Flat model of a PostCSS node. `id` stands for JS object identity;
`atRule`/`name`/`params` describe at-rule nodes; `source` models the
source-location object; `parentLayer` models `raws.tailwind?.parentLayer`
and `layerRaw` the `layer` raw written by `cloneNodes`. -/
structure Node where
  id : Nat
  atRule : Bool := false
  name : String := ""
  params : String := ""
  source : Option Nat := none
  parentLayer : Option String := none
  layerRaw : Option String := none
deriving DecidableEq, Repr

/-- Keys of the `layerNodes` object (`Object.keys(layerNodes)`). -/
def layerKeys : List String := ["base", "components", "utilities", "variants"]

/-- Marker slots discovered in the host document. -/
structure LayerNodes where
  base : Option Node := none
  components : Option Node := none
  utilities : Option Node := none
  variants : Option Node := none
deriving DecidableEq, Repr

/-- One step of the `walkAtRules` discovery (lines 124-134): a `@tailwind`
at-rule whose params are a known layer key overwrites that layer's slot. -/
def registerLayerNode (ln : LayerNodes) (n : Node) : LayerNodes :=
  if n.atRule && n.name == "tailwind" then
    if n.params == "base" then { ln with base := some n }
    else if n.params == "components" then { ln with components := some n }
    else if n.params == "utilities" then { ln with utilities := some n }
    else if n.params == "variants" then { ln with variants := some n }
    else ln
  else ln

/-- Walk the document collecting layer markers, in document order. -/
def findLayerNodes (doc : List Node) : LayerNodes :=
  doc.foldl registerLayerNode {}

/-- Ordering key attached to a generated rule (`offsets.js` RuleOffset);
only the `layer` tag is consumed by `buildStylesheet`, the rest of the
key is abstracted as a number used by the external sort. -/
structure Offset where
  layer : String
  pos : Nat := 0
deriving DecidableEq, Repr

/-- Entry of the Rule Cache: an `[offset, rule]` pair. -/
abbrev RuleEntry := Offset × Node

/-- Stylesheet Cache: the five layer sets produced by `buildStylesheet`
(JS `Set`s of nodes, modelled as insertion-ordered duplicate-free lists). -/
structure Stylesheet where
  base : List Node := []
  defaults : List Node := []
  components : List Node := []
  utilities : List Node := []
  variants : List Node := []
deriving DecidableEq, Repr

/-- One step of the bucket loop of `buildStylesheet`
(`returnValue[sort.layer].add(rule)`): an unknown layer tag indexes a
missing property and the `add` call throws, modelled as `none`. -/
def addToLayer (s : Stylesheet) (layer : String) (r : Node) : Option Stylesheet :=
  if layer = "base" then some { s with base := setInsert s.base r }
  else if layer = "defaults" then some { s with defaults := setInsert s.defaults r }
  else if layer = "components" then some { s with components := setInsert s.components r }
  else if layer = "utilities" then some { s with utilities := setInsert s.utilities r }
  else if layer = "variants" then some { s with variants := setInsert s.variants r }
  else none

/-- Partition the Rule Cache into the five layers (lines 87-103): sort the
`(offset, rule)` pairs with the context's offset sort (an external
component, passed in as a function), then bucket each rule by its
offset's layer tag. -/
def buildStylesheet (offsetsSort : List RuleEntry → List RuleEntry)
    (rules : List RuleEntry) : Option Stylesheet :=
  (offsetsSort rules).foldlM (fun s e => addToLayer s e.1.layer e.2) {}

/-- Behaviour oracles for the external collaborators of the pass: the
oxide scanner (`parseCandidateStrings`), the extractor and transformer
function bodies, the per-candidate rules appended by `generateRules`, and
the offset sort used by `buildStylesheet`. -/
structure Oracles where
  oxideScan : List ContentItem → List String
  extractFn : Extractor → String → List String
  transformFn : Transformer → String → String
  ruleOf : String → List RuleEntry
  offsetsSort : List RuleEntry → List RuleEntry

/-- Per-extractor line cache mapping a trimmed line to its token set. The
LRU bound (25000 entries) of the external `@alloc/quick-lru` library is
not modelled: the cache is modelled as an unbounded map, i.e. an LRU that
never reaches capacity. -/
abbrev LineCache := List (String × List String)

/-- Create the per-extractor cache when absent (lines 53-55). -/
def ensureCache (caches : List (Extractor × LineCache)) (ex : Extractor) :
    List (Extractor × LineCache) :=
  match alookup caches ex with
  | some _ => caches
  | none => (ex, []) :: caches

/-- Write back the (mutated) line cache of one extractor. -/
def writeCache (caches : List (Extractor × LineCache)) (ex : Extractor)
    (c : LineCache) : List (Extractor × LineCache) :=
  caches.map (fun p => if p.1 = ex then (ex, c) else p)

/-- State threaded through the line loop of `getClassCandidates`: the one
extractor's line cache, the shared candidate set and the shared seen set. -/
structure LineScanSt where
  cache : LineCache
  candidates : List String
  seen : List String
deriving DecidableEq, Repr

/-- Body of the line loop of `getClassCandidates` (lines 57-79): trim the
line; skip it when already seen; otherwise record it as seen and either
union the cached token set into the candidates (cache hit) or run the
extractor, drop the `"!*"` noise token, deduplicate, union into the
candidates and store into the cache (cache miss). -/
def processLine (extractFn : Extractor → String → List String) (ex : Extractor)
    (st : LineScanSt) (rawLine : List Char) : LineScanSt :=
  let line := String.mk (trimChars rawLine)
  if line ∈ st.seen then st
  else
    match alookup st.cache line with
    | some toks =>
      { cache := st.cache, candidates := setUnion st.candidates toks,
        seen := setInsert st.seen line }
    | none =>
      let toks := ((extractFn ex line).filter (fun s => s ≠ "!*")).dedup
      { cache := (line, toks) :: st.cache, candidates := setUnion st.candidates toks,
        seen := setInsert st.seen line }

/-- Scan state shared across all content items of one build pass. -/
structure ScanSt where
  candidates : List String
  seen : List String
  caches : List (Extractor × LineCache)
deriving DecidableEq, Repr

/-- Scan one content blob for class candidates (lines 52-80): ensure the
extractor's cache exists, then run the line loop over `content.split('\n')`
with the pass-wide candidate and seen sets, writing the updated line cache
back into the per-extractor cache map. -/
def getClassCandidates (extractFn : Extractor → String → List String)
    (ex : Extractor) (content : String) (st : ScanSt) : ScanSt :=
  let caches := ensureCache st.caches ex
  let cache0 := (alookup caches ex).getD []
  let r := (splitLines content.data).foldl (processLine extractFn ex)
    ⟨cache0, st.candidates, st.seen⟩
  { candidates := r.candidates, seen := r.seen, caches := writeCache caches ex r.cache }

/-- Sentinel candidate `sharedState.NOT_ON_DEMAND` (a boxed
`new String('*')` in the source, modelled as the plain token `"*"`). -/
def NOT_ON_DEMAND : String := "*"

/-- Candidate discovery of one build pass (lines 146-215): start from the
pre-existing context candidates plus the sentinel, route the changed
content between the oxide queue and the regex queue, add the oxide
scanner's candidates when its queue is non-empty, then run the memoized
extraction over every regex-queue item with one shared seen set. The
batched concurrent file reads of the source are modelled sequentially in
queue order (the final candidate order is made canonical by the sort that
follows, see `sortCandidates`). -/
def scanStage (or : Oracles) (cfg : TailwindConfig)
    (caches : List (Extractor × LineCache)) (preCandidates : List String)
    (changedContent : List ContentItem) : ScanSt :=
  let candidates := setUnion [] (preCandidates ++ [NOT_ON_DEMAND])
  let routed := routeContent cfg changedContent
  let candidates :=
    if routed.1.length > 0 then setUnion candidates (or.oxideScan routed.1)
    else candidates
  routed.2.foldl
    (fun st p => getClassCandidates or.extractFn p.2.2 (or.transformFn p.2.1 p.1.content) st)
    ⟨candidates, [], caches⟩

/-- Deterministic candidate sort (lines 231-237): plain lexicographic
ascending order over the token strings. -/
def sortCandidates (l : List String) : List String :=
  @List.insertionSort String strLe strLeDec l

/-- Build context state relevant to the pass. -/
structure Context where
  tailwindConfig : TailwindConfig
  candidates : List String := []
  changedContent : List ContentItem := []
  classCache : List String := []
  ruleCache : List RuleEntry := []
  stylesheetCache : Option Stylesheet := none
deriving DecidableEq

/-- Modelled from the spec: `generateRules` lives in `generateRules.js`,
outside `src/`. Per the spec's rule-generator contract it appends
`(orderingKey, rule)` pairs to the Rule Cache for any candidate not
already present in the Class Cache, records the candidate in the Class
Cache, and is idempotent per candidate; the concrete rules appended for a
candidate are supplied by the `ruleOf` oracle. -/
def generateRules (ruleOf : String → List RuleEntry) (cands : List String)
    (ctx : Context) : Context :=
  cands.foldl
    (fun c cand =>
      if cand ∈ c.classCache then c
      else
        { c with
            classCache := c.classCache ++ [cand],
            ruleCache := c.ruleCache ++ ruleOf cand })
    ctx

/-- Generation and stylesheet-rebuild step (lines 224-253): capture the
Class Cache size, generate rules for the sorted candidates, and rebuild
the Stylesheet Cache when it is absent or the Class Cache size changed. -/
def generateStage (or : Oracles) (ctx : Context) (sortedCandidates : List String) :
    Option Context :=
  let classCacheCount := ctx.classCache.length
  let ctx2 := generateRules or.ruleOf sortedCandidates ctx
  if ctx2.stylesheetCache = none ∨ ctx2.classCache.length ≠ classCacheCount then
    match buildStylesheet or.offsetsSort ctx2.ruleCache with
    | some sheet => some { ctx2 with stylesheetCache := some sheet }
    | none => none
  else some ctx2

/-- Clone one node: tag it with the layer raw and inherit the given source
location when one is supplied (the node `id` is kept as provenance). -/
def cloneNode (src : Option Nat) (layer : String) (n : Node) : Node :=
  { n with
      layerRaw := some layer,
      source := match src with | some s => some s | none => n.source }

/-- Modelled from the spec: `cloneNodes` lives in `util/cloneNodes.js`,
outside `src/`; per the spec the layer content is "cloned with inherited
source-location metadata" and tagged with its layer. -/
def cloneNodes (ns : List Node) (src : Option Nat) (layer : String) : List Node :=
  ns.map (cloneNode src layer)

/-- Replace the node of the given identity by a node sequence, in place
(`marker.before(nodes); marker.remove()`). -/
def replaceNode (doc : List Node) (targetId : Nat) (repl : List Node) : List Node :=
  (doc.map (fun n => if n.id = targetId then repl else [n])).flatten

/-- Post-filter predicate over generated variant nodes (lines 299-311):
keep a node whose recorded parent layer is `components`/`utilities` only
when that layer's marker was found; keep every other node. -/
def keepVariantNode (ln : LayerNodes) (node : Node) : Bool :=
  if node.parentLayer = some "components" then ln.components.isSome
  else if node.parentLayer = some "utilities" then ln.utilities.isSome
  else true

/-- Cleanup of leftover `@layer` at-rules with a known layer key
(lines 364-368). -/
def layerCleanup (doc : List Node) : List Node :=
  doc.filter (fun n => !(n.atRule && n.name == "layer" && decide (n.params ∈ layerKeys)))

/-- Result of the splice engine: the rewritten document plus the keys of
the warnings emitted. -/
structure SpliceResult where
  doc : List Node
  warnings : List String
deriving DecidableEq, Repr

/-- Splice one layer: when its marker was found, replace the marker node
by the layer's cloned nodes (`marker.before(cloneNodes(...)); marker.remove()`);
when no marker was found, leave the document alone. -/
def spliceLayer (marker : Option Node) (nodes : List Node) (layer : String)
    (doc : List Node) : List Node :=
  match marker with
  | some m => replaceNode doc m.id (cloneNodes nodes m.source layer)
  | none => doc

/-- Splice the post-filtered variant nodes (lines 313-336): at the
variants marker when one exists, otherwise appended at the end of the
document when any filtered node remains. The source-location backfill
walk of the append branch visits only children of each clone and the
nodes of this flat model have none, so it is a no-op here. -/
def spliceVariants (ln : LayerNodes) (variantNodes : List Node) (doc : List Node) :
    List Node :=
  match ln.variants with
  | some m => replaceNode doc m.id (cloneNodes variantNodes m.source "variants")
  | none =>
    if variantNodes.length > 0 then doc ++ cloneNodes variantNodes none "variants"
    else doc

/-- Warning computation (lines 341-351): one `content-problems` warning
when a utilities marker was found yet the utilities set is empty and no
surviving variant node records the utilities parent layer. -/
def utilitiesWarning (ln : LayerNodes) (sheet : Stylesheet)
    (variantNodes : List Node) : List String :=
  if ln.utilities.isSome ∧ sheet.utilities.length = 0 ∧
      variantNodes.any (fun n => n.parentLayer == some "utilities") = false then
    ["content-problems"]
  else []

/-- Splice engine (lines 256-368, without the `changedContent` reset):
replace each found marker by its layer's cloned nodes (`base` receives the
base nodes followed by the defaults nodes), post-filter the variants by
`keepVariantNode` and splice them, emit the `content-problems` warning
when warranted, and finally drop leftover `@layer` at-rules. The
`root.source.end` fixup of line 339 concerns a field of the root object
that this list model does not carry. -/
def spliceStage (ln : LayerNodes) (sheet : Stylesheet) (root : List Node) :
    SpliceResult :=
  let root1 := spliceLayer ln.base (sheet.base ++ sheet.defaults) "base" root
  let root2 := spliceLayer ln.components sheet.components "components" root1
  let root3 := spliceLayer ln.utilities sheet.utilities "utilities" root2
  let variantNodes := sheet.variants.filter (keepVariantNode ln)
  let root4 := spliceVariants ln variantNodes root3
  { doc := layerCleanup root4,
    warnings := utilitiesWarning ln sheet variantNodes }

/-- Cross-pass state: the build context plus the module-level
per-extractor cache map (`extractorCache` of line 47). -/
structure PassState where
  ctx : Context
  extractorCaches : List (Extractor × LineCache) := []
deriving DecidableEq

/-- Result of one build pass. -/
structure PassResult where
  state : PassState
  doc : List Node
  warnings : List String
deriving DecidableEq

/-- One build pass of `expandTailwindAtRules` (lines 105-372): discover
the layer markers; bail out with everything untouched when none was
found; otherwise scan the changed content, sort the candidates, generate
rules, rebuild the stylesheet partition when needed, splice, and clear
the changed-content list. `none` models a thrown TypeError (an unknown
layer tag inside `buildStylesheet`, or splicing with a null stylesheet
cache, which the rebuild condition rules out). -/
def expandTailwindAtRules (or : Oracles) (st : PassState) (root : List Node) :
    Option PassResult :=
  let ln := findLayerNodes root
  if ln.base = none ∧ ln.components = none ∧ ln.utilities = none ∧ ln.variants = none then
    some { state := st, doc := root, warnings := [] }
  else
    let scan := scanStage or st.ctx.tailwindConfig st.extractorCaches st.ctx.candidates
      st.ctx.changedContent
    let sorted := sortCandidates scan.candidates
    match generateStage or st.ctx sorted with
    | none => none
    | some ctx2 =>
      match ctx2.stylesheetCache with
      | none => none
      | some sheet =>
        let spliced := spliceStage ln sheet root
        some
          { state :=
              { ctx := { ctx2 with changedContent := [] },
                extractorCaches := scan.caches },
            doc := spliced.doc,
            warnings := spliced.warnings }

/-! Shared helper lemmas about the JS `Set` model. -/

theorem mem_setInsert {α : Type} [DecidableEq α] {l : List α} {x y : α} :
    y ∈ setInsert l x ↔ y ∈ l ∨ y = x := by
  by_cases h : x ∈ l
  · simp only [setInsert, if_pos h]
    constructor
    · exact Or.inl
    · rintro (hy | rfl)
      · exact hy
      · exact h
  · simp [setInsert, if_neg h]

theorem nodup_setInsert {α : Type} [DecidableEq α] {l : List α} (x : α)
    (h : l.Nodup) : (setInsert l x).Nodup := by
  by_cases hx : x ∈ l
  · simpa [setInsert, if_pos hx] using h
  · rw [setInsert, if_neg hx, List.nodup_append]
    refine ⟨h, List.nodup_singleton x, fun a ha hax => ?_⟩
    rw [List.mem_singleton] at hax
    exact hx (hax ▸ ha)

theorem mem_setUnion {α : Type} [DecidableEq α] {xs : List α} :
    ∀ {l : List α} {y : α}, y ∈ setUnion l xs ↔ y ∈ l ∨ y ∈ xs := by
  induction xs with
  | nil => intro l y; simp [setUnion]
  | cons x xs ih =>
    intro l y
    have hstep : setUnion l (x :: xs) = setUnion (setInsert l x) xs := rfl
    rw [hstep, ih, mem_setInsert]
    simp only [List.mem_cons]
    tauto

theorem nodup_setUnion {α : Type} [DecidableEq α] {xs : List α} :
    ∀ {l : List α}, l.Nodup → (setUnion l xs).Nodup := by
  induction xs with
  | nil => intro l h; simpa [setUnion] using h
  | cons x xs ih =>
    intro l h
    exact ih (nodup_setInsert x h)

/-! Claim C1: post-filtering of generated variant nodes. -/

theorem keepVariantNode_eq_true {ln : LayerNodes} {n : Node} :
    keepVariantNode ln n = true ↔
      ((n.parentLayer = some "components" → ln.components.isSome = true) ∧
       (n.parentLayer = some "utilities" → ln.utilities.isSome = true)) := by
  unfold keepVariantNode
  by_cases h1 : n.parentLayer = some "components"
  · have hne : n.parentLayer ≠ some "utilities" := by
      rw [h1]
      intro hc
      exact absurd (Option.some.inj hc) (by decide)
    simp [h1, hne]
  · by_cases h2 : n.parentLayer = some "utilities"
    · simp [h1, h2]
    · simp [h1, h2]

/-- C1: a generated variant node whose recorded parent layer is
`components` survives the post-filter exactly when a components marker
was found, one whose recorded parent layer is `utilities` survives
exactly when a utilities marker was found, every other node is always
kept, and the filter preserves the relative order of the variants layer
set (the filtered list is a sublist of the input). -/
theorem c1_variant_post_filter (ln : LayerNodes) (nodes : List Node) :
    (nodes.filter (keepVariantNode ln)).Sublist nodes ∧
    ∀ n : Node,
      n ∈ nodes.filter (keepVariantNode ln) ↔
        n ∈ nodes ∧
          (n.parentLayer = some "components" → ln.components.isSome = true) ∧
          (n.parentLayer = some "utilities" → ln.utilities.isSome = true) := by
  refine ⟨List.filter_sublist _, fun n => ?_⟩
  rw [List.mem_filter, keepVariantNode_eq_true]

/-- Marker set with only a utilities marker, for concrete instances. -/
def lnUtilitiesOnly : LayerNodes :=
  { utilities := some { id := 10, atRule := true, name := "tailwind", params := "utilities" } }

/-- Variant node recorded under the components parent layer. -/
def vComp : Node := { id := 20, parentLayer := some "components" }

/-- Variant node recorded under the utilities parent layer. -/
def vUtil : Node := { id := 21, parentLayer := some "utilities" }

/-- Variant node with no recorded parent layer. -/
def vOther : Node := { id := 22 }

/-- Witness for C1 at a concrete marker set and node list. -/
theorem c1_variant_post_filter_witness :
    (([vComp, vUtil, vOther].filter (keepVariantNode lnUtilitiesOnly)).Sublist
        [vComp, vUtil, vOther] ∧
      ∀ n : Node,
        n ∈ [vComp, vUtil, vOther].filter (keepVariantNode lnUtilitiesOnly) ↔
          n ∈ [vComp, vUtil, vOther] ∧
            (n.parentLayer = some "components" → lnUtilitiesOnly.components.isSome = true) ∧
            (n.parentLayer = some "utilities" → lnUtilitiesOnly.utilities.isSome = true)) ∧
    [vComp, vUtil, vOther].filter (keepVariantNode lnUtilitiesOnly) = [vUtil, vOther] :=
  ⟨c1_variant_post_filter lnUtilitiesOnly [vComp, vUtil, vOther], by decide⟩

/-! Claim C3: routing between the oxide queue and the regex queue. -/

theorem routeContent_spec (cfg : TailwindConfig) (items : List ContentItem) :
    routeContent cfg items =
      (items.filter (shouldUseOxidePath cfg),
        (items.filter (fun i => !shouldUseOxidePath cfg i)).map
          (fun i => (i, getTransformer cfg i.extension, getExtractor cfg i.extension))) := by
  have key : ∀ (l : List ContentItem)
      (acc : List ContentItem × List (ContentItem × Transformer × Extractor)),
      l.foldl
        (fun acc item =>
          let transformer := getTransformer cfg item.extension
          let extractor := getExtractor cfg item.extension
          if flagEnabled cfg "oxideParser" &&
              transformer == Transformer.builtinDefault &&
              hasDefaultMarker extractor then
            (acc.1 ++ [item], acc.2)
          else
            (acc.1, acc.2 ++ [(item, transformer, extractor)]))
        acc =
      (acc.1 ++ l.filter (shouldUseOxidePath cfg),
        acc.2 ++ (l.filter (fun i => !shouldUseOxidePath cfg i)).map
          (fun i => (i, getTransformer cfg i.extension, getExtractor cfg i.extension))) := by
    intro l
    induction l with
    | nil => intro acc; simp
    | cons i rest ih =>
      intro acc
      by_cases hc : shouldUseOxidePath cfg i = true
      · have hc2 : (flagEnabled cfg "oxideParser" &&
            getTransformer cfg i.extension == Transformer.builtinDefault &&
            hasDefaultMarker (getExtractor cfg i.extension)) = true := hc
        simp only [List.foldl_cons, hc2, if_true, List.filter_cons, hc]
        rw [ih]
        simp [hc]
      · have hc2 : (flagEnabled cfg "oxideParser" &&
            getTransformer cfg i.extension == Transformer.builtinDefault &&
            hasDefaultMarker (getExtractor cfg i.extension)) = false :=
          Bool.eq_false_iff.mpr hc
        simp only [List.foldl_cons, hc2, Bool.false_eq_true, if_false, List.filter_cons]
        rw [ih]
        simp [hc, Bool.eq_false_iff.mpr hc]
  have h := key items ([], [])
  simpa [routeContent] using h

/-- C3: a pending content item is routed to the oxide (native parallel
scan) queue exactly when the `oxideParser` flag is enabled, the resolved
transformer is identical to the built-in default transformer, and the
resolved extractor carries the default-extractor marker; every other item
is routed to the regex queue paired with its resolved transformer and
extractor, both queues in input order. -/
theorem c3_oxide_routing (cfg : TailwindConfig) (items : List ContentItem) :
    (routeContent cfg items).1 = items.filter (shouldUseOxidePath cfg) ∧
    (routeContent cfg items).2 =
      (items.filter (fun i => !shouldUseOxidePath cfg i)).map
        (fun i => (i, getTransformer cfg i.extension, getExtractor cfg i.extension)) ∧
    ∀ item : ContentItem,
      shouldUseOxidePath cfg item = true ↔
        (flagEnabled cfg "oxideParser" = true ∧
          getTransformer cfg item.extension = Transformer.builtinDefault ∧
          hasDefaultMarker (getExtractor cfg item.extension) = true) := by
  refine ⟨by rw [routeContent_spec], by rw [routeContent_spec], fun item => ?_⟩
  unfold shouldUseOxidePath
  simp [Bool.and_eq_true, beq_iff_eq, and_assoc]

/-- Configuration with the oxide flag on and no custom functions. -/
def cfgOxide : TailwindConfig := { oxideParser := true }

/-- Content item with a plain extension (defaults resolve for it). -/
def itemHtml : ContentItem := { content := "x", extension := "html" }

/-- Content item with the svelte extension (built-in svelte transformer,
not the default one). -/
def itemSvelte : ContentItem := { content := "y", extension := "svelte" }

/-- Witness for C3: with the flag on, the default-resolved item goes to
the oxide queue and the svelte item goes to the regex queue. -/
theorem c3_oxide_routing_witness :
    (routeContent cfgOxide [itemHtml, itemSvelte]).1 = [itemHtml] ∧
    (routeContent cfgOxide [itemHtml, itemSvelte]).2 =
      [(itemSvelte, Transformer.builtinSvelte, Extractor.markedDefault)] ∧
    (shouldUseOxidePath cfgOxide itemHtml = true ↔
      (flagEnabled cfgOxide "oxideParser" = true ∧
        getTransformer cfgOxide itemHtml.extension = Transformer.builtinDefault ∧
        hasDefaultMarker (getExtractor cfgOxide itemHtml.extension) = true)) := by
  have h := c3_oxide_routing cfgOxide [itemHtml, itemSvelte]
  exact ⟨h.1.trans (by decide), h.2.1.trans (by decide), h.2.2 itemHtml⟩

/-! Claim C8: duplicated layer directives. The claim asserts first-wins;
the discovery loop overwrites the marker slot on every matching
directive, so the last directive in document order wins. -/

/-- Test whether a node is a `@tailwind <layer>` directive. -/
def isTailwindDirective (layer : String) (n : Node) : Bool :=
  n.atRule && n.name == "tailwind" && n.params == layer

/-- First `@tailwind base` directive of the duplicated document. -/
def dupBaseA : Node := { id := 1, atRule := true, name := "tailwind", params := "base" }

/-- Second `@tailwind base` directive of the duplicated document. -/
def dupBaseB : Node := { id := 2, atRule := true, name := "tailwind", params := "base" }

/-- Counterexample to C8: in a document holding two `@tailwind base`
directives, the marker slot ends up holding the second directive, not the
first, and the splice replaces the second one while the first survives in
the output document. -/
theorem c8_counterexample :
    (findLayerNodes [dupBaseA, dupBaseB]).base = some dupBaseB ∧
    dupBaseB ≠ dupBaseA ∧
    (spliceStage (findLayerNodes [dupBaseA, dupBaseB]) {} [dupBaseA, dupBaseB]).doc
      = [dupBaseA] := by
  decide

theorem registerLayerNode_base (ln : LayerNodes) (n : Node) :
    (registerLayerNode ln n).base =
      if isTailwindDirective "base" n then some n else ln.base := by
  unfold registerLayerNode isTailwindDirective
  by_cases h1 : n.atRule = true
  · by_cases h2 : n.name = "tailwind"
    · by_cases h3 : n.params = "base"
      · simp [h1, h2, h3]
      · by_cases h4 : n.params = "components"
        · simp [h1, h2, h3, h4]
        · by_cases h5 : n.params = "utilities"
          · simp [h1, h2, h3, h5]
          · by_cases h6 : n.params = "variants"
            · simp [h1, h2, h3, h6]
            · simp [h1, h2, h3, h4, h5, h6]
    · simp [h1, h2]
  · simp [h1]

theorem registerLayerNode_components (ln : LayerNodes) (n : Node) :
    (registerLayerNode ln n).components =
      if isTailwindDirective "components" n then some n else ln.components := by
  unfold registerLayerNode isTailwindDirective
  by_cases h1 : n.atRule = true
  · by_cases h2 : n.name = "tailwind"
    · by_cases h3 : n.params = "base"
      · have : n.params ≠ "components" := by rw [h3]; decide
        simp [h1, h2, h3, this]
      · by_cases h4 : n.params = "components"
        · simp [h1, h2, h3, h4]
        · by_cases h5 : n.params = "utilities"
          · simp [h1, h2, h3, h4, h5]
          · by_cases h6 : n.params = "variants"
            · simp [h1, h2, h3, h4, h6]
            · simp [h1, h2, h3, h4, h5, h6]
    · simp [h1, h2]
  · simp [h1]

theorem registerLayerNode_utilities (ln : LayerNodes) (n : Node) :
    (registerLayerNode ln n).utilities =
      if isTailwindDirective "utilities" n then some n else ln.utilities := by
  unfold registerLayerNode isTailwindDirective
  by_cases h1 : n.atRule = true
  · by_cases h2 : n.name = "tailwind"
    · by_cases h3 : n.params = "base"
      · have : n.params ≠ "utilities" := by rw [h3]; decide
        simp [h1, h2, h3, this]
      · by_cases h4 : n.params = "components"
        · have : n.params ≠ "utilities" := by rw [h4]; decide
          simp [h1, h2, h3, h4, this]
        · by_cases h5 : n.params = "utilities"
          · simp [h1, h2, h3, h4, h5]
          · by_cases h6 : n.params = "variants"
            · simp [h1, h2, h3, h4, h5, h6]
            · simp [h1, h2, h3, h4, h5, h6]
    · simp [h1, h2]
  · simp [h1]

theorem registerLayerNode_variants (ln : LayerNodes) (n : Node) :
    (registerLayerNode ln n).variants =
      if isTailwindDirective "variants" n then some n else ln.variants := by
  unfold registerLayerNode isTailwindDirective
  by_cases h1 : n.atRule = true
  · by_cases h2 : n.name = "tailwind"
    · by_cases h3 : n.params = "base"
      · have : n.params ≠ "variants" := by rw [h3]; decide
        simp [h1, h2, h3, this]
      · by_cases h4 : n.params = "components"
        · have : n.params ≠ "variants" := by rw [h4]; decide
          simp [h1, h2, h3, h4, this]
        · by_cases h5 : n.params = "utilities"
          · have : n.params ≠ "variants" := by rw [h5]; decide
            simp [h1, h2, h3, h4, h5, this]
          · by_cases h6 : n.params = "variants"
            · simp [h1, h2, h3, h4, h5, h6]
            · simp [h1, h2, h3, h4, h5, h6]
    · simp [h1, h2]
  · simp [h1]

theorem foldl_register_last (doc : List Node) :
    ∀ ln : LayerNodes,
      ((doc.foldl registerLayerNode ln).base =
          ((doc.filter (isTailwindDirective "base")).getLast?).or ln.base) ∧
      ((doc.foldl registerLayerNode ln).components =
          ((doc.filter (isTailwindDirective "components")).getLast?).or ln.components) ∧
      ((doc.foldl registerLayerNode ln).utilities =
          ((doc.filter (isTailwindDirective "utilities")).getLast?).or ln.utilities) ∧
      ((doc.foldl registerLayerNode ln).variants =
          ((doc.filter (isTailwindDirective "variants")).getLast?).or ln.variants) := by
  induction doc using List.reverseRecOn with
  | nil => intro ln; simp
  | append_singleton rest n ih =>
    intro ln
    have hf : ((rest ++ [n]).foldl registerLayerNode ln) =
        registerLayerNode (rest.foldl registerLayerNode ln) n := by
      rw [List.foldl_append]
      rfl
    rw [hf]
    obtain ⟨ihb, ihc, ihu, ihv⟩ := ih ln
    refine ⟨?_, ?_, ?_, ?_⟩
    · rw [registerLayerNode_base, ihb, List.filter_append]
      by_cases hn : isTailwindDirective "base" n = true
      · simp [hn, List.getLast?_concat]
      · simp [hn]
    · rw [registerLayerNode_components, ihc, List.filter_append]
      by_cases hn : isTailwindDirective "components" n = true
      · simp [hn, List.getLast?_concat]
      · simp [hn]
    · rw [registerLayerNode_utilities, ihu, List.filter_append]
      by_cases hn : isTailwindDirective "utilities" n = true
      · simp [hn, List.getLast?_concat]
      · simp [hn]
    · rw [registerLayerNode_variants, ihv, List.filter_append]
      by_cases hn : isTailwindDirective "variants" n = true
      · simp [hn, List.getLast?_concat]
      · simp [hn]

/-- C8 amended: when a host document contains several `@tailwind`
directives with the same layer-name parameter, the marker registered for
that layer — the node the splice replaces — is the LAST such directive in
document order (the discovery loop overwrites the slot on every match),
not the first. -/
theorem c8_amended_last_wins (doc : List Node) :
    (findLayerNodes doc).base = (doc.filter (isTailwindDirective "base")).getLast? ∧
    (findLayerNodes doc).components =
      (doc.filter (isTailwindDirective "components")).getLast? ∧
    (findLayerNodes doc).utilities =
      (doc.filter (isTailwindDirective "utilities")).getLast? ∧
    (findLayerNodes doc).variants =
      (doc.filter (isTailwindDirective "variants")).getLast? := by
  have h := foldl_register_last doc {}
  simpa [findLayerNodes] using h

/-! Claim C10: early bail-out when the document has no tailwind directive. -/

theorem registerLayerNode_skip (ln : LayerNodes) {n : Node}
    (h : ¬(n.atRule = true ∧ n.name = "tailwind" ∧ n.params ∈ layerKeys)) :
    registerLayerNode ln n = ln := by
  unfold registerLayerNode
  by_cases h1 : n.atRule = true
  · by_cases h2 : n.name = "tailwind"
    · have h3 : n.params ∉ layerKeys := fun hp => h ⟨h1, h2, hp⟩
      have hb : n.params ≠ "base" := fun e => h3 (by rw [e]; decide)
      have hc : n.params ≠ "components" := fun e => h3 (by rw [e]; decide)
      have hu : n.params ≠ "utilities" := fun e => h3 (by rw [e]; decide)
      have hv : n.params ≠ "variants" := fun e => h3 (by rw [e]; decide)
      simp [h1, h2, hb, hc, hu, hv]
    · simp [h1, h2]
  · simp [h1]

theorem findLayerNodes_eq_empty : ∀ root : List Node,
    (∀ n ∈ root, ¬(n.atRule = true ∧ n.name = "tailwind" ∧ n.params ∈ layerKeys)) →
    findLayerNodes root = {} := by
  intro root
  induction root with
  | nil => intro _; rfl
  | cons n rest ih =>
    intro h
    have hn := registerLayerNode_skip ({} : LayerNodes) (h n (List.mem_cons_self n rest))
    show (n :: rest).foldl registerLayerNode {} = {}
    rw [List.foldl_cons, hn]
    exact ih (fun m hm => h m (List.mem_cons_of_mem n hm))

/-- C10: on a host document with no `@tailwind` directive naming one of
the four layer keys, the pass returns the document unchanged, an
unchanged pass state (rule cache, class cache, stylesheet cache,
extraction caches and — notably — the still pending `changedContent`),
and no warnings. The equation holds for every oracle assignment, so no
scanning, extraction, sorting or rule generation influences the result. -/
theorem c10_no_directive_is_noop (or : Oracles) (st : PassState) (root : List Node)
    (h : ∀ n ∈ root, ¬(n.atRule = true ∧ n.name = "tailwind" ∧ n.params ∈ layerKeys)) :
    expandTailwindAtRules or st root = some { state := st, doc := root, warnings := [] } := by
  unfold expandTailwindAtRules
  rw [findLayerNodes_eq_empty root h]
  simp

/-- Oracle assignment with trivial behaviours, for concrete instances. -/
def trivialOracles : Oracles :=
  { oxideScan := fun _ => [], extractFn := fun _ _ => [], transformFn := fun _ c => c,
    ruleOf := fun _ => [], offsetsSort := fun l => l }

/-- Plain non-directive node. -/
def plainNode : Node := { id := 5 }

/-- Initial pass state over an empty configuration. -/
def st0 : PassState := { ctx := { tailwindConfig := {} } }

/-- Witness for C10 at a concrete one-node document. -/
theorem c10_no_directive_is_noop_witness :
    (∀ n ∈ [plainNode], ¬(n.atRule = true ∧ n.name = "tailwind" ∧ n.params ∈ layerKeys)) ∧
    expandTailwindAtRules trivialOracles st0 [plainNode] =
      some { state := st0, doc := [plainNode], warnings := [] } :=
  ⟨by decide, c10_no_directive_is_noop trivialOracles st0 [plainNode] (by decide)⟩

/-! Claim C7: the stylesheet-cache rebuild condition. -/

theorem generateRules_spec (ruleOf : String → List RuleEntry) :
    ∀ (cands : List String) (ctx : Context),
      (generateRules ruleOf cands ctx).stylesheetCache = ctx.stylesheetCache ∧
      ctx.classCache.length ≤ (generateRules ruleOf cands ctx).classCache.length := by
  intro cands
  induction cands with
  | nil => intro ctx; exact ⟨rfl, le_refl _⟩
  | cons c rest ih =>
    intro ctx
    have hfold : generateRules ruleOf (c :: rest) ctx =
        generateRules ruleOf rest
          (if c ∈ ctx.classCache then ctx
           else { ctx with classCache := ctx.classCache ++ [c],
                           ruleCache := ctx.ruleCache ++ ruleOf c }) := by
      unfold generateRules
      rw [List.foldl_cons]
    rw [hfold]
    by_cases hc : c ∈ ctx.classCache
    · simpa [hc] using ih ctx
    · have h2 := ih { ctx with
        classCache := ctx.classCache ++ [c]
        ruleCache := ctx.ruleCache ++ ruleOf c }
      rw [if_neg hc]
      refine ⟨h2.1, le_trans ?_ h2.2⟩
      simp

/-- C7: the stylesheet partition is recomputed from the full Rule Cache
exactly when the cached partition is absent or the Class Cache's entry
count strictly grew across this pass's rule generation; otherwise the
previously built partition is reused unchanged (rule generation never
touches the stylesheet cache, second conjunct). -/
theorem c7_stylesheet_rebuild_condition (or : Oracles) (ctx : Context)
    (sortedCandidates : List String) :
    (generateStage or ctx sortedCandidates =
      if ctx.stylesheetCache = none ∨
          ctx.classCache.length <
            (generateRules or.ruleOf sortedCandidates ctx).classCache.length then
        match buildStylesheet or.offsetsSort
            (generateRules or.ruleOf sortedCandidates ctx).ruleCache with
        | some sheet =>
          some { generateRules or.ruleOf sortedCandidates ctx with
                   stylesheetCache := some sheet }
        | none => none
      else some (generateRules or.ruleOf sortedCandidates ctx)) ∧
    (generateRules or.ruleOf sortedCandidates ctx).stylesheetCache =
      ctx.stylesheetCache := by
  have hspec := generateRules_spec or.ruleOf sortedCandidates ctx
  refine ⟨?_, hspec.1⟩
  have hcond : ((generateRules or.ruleOf sortedCandidates ctx).stylesheetCache = none ∨
      (generateRules or.ruleOf sortedCandidates ctx).classCache.length ≠
        ctx.classCache.length) ↔
      (ctx.stylesheetCache = none ∨
        ctx.classCache.length <
          (generateRules or.ruleOf sortedCandidates ctx).classCache.length) := by
    rw [hspec.1]
    constructor
    · rintro (h | h)
      · exact Or.inl h
      · exact Or.inr (lt_of_le_of_ne hspec.2 (Ne.symm h))
    · rintro (h | h)
      · exact Or.inl h
      · exact Or.inr (Nat.ne_of_lt h).symm
  unfold generateStage
  rw [if_congr hcond rfl rfl]

/-! Claim C2: `buildStylesheet` partitions the Rule Cache by layer tag. -/

/-- Names of the five layer sets of the stylesheet. -/
def layerNames : List String := ["base", "defaults", "components", "utilities", "variants"]

/-- Lookup a layer set of the stylesheet by its name (an unknown name has
no set). -/
def sheetLayer (s : Stylesheet) (layer : String) : List Node :=
  if layer = "base" then s.base
  else if layer = "defaults" then s.defaults
  else if layer = "components" then s.components
  else if layer = "utilities" then s.utilities
  else if layer = "variants" then s.variants
  else []

theorem addToLayer_spec {layer : String} (hl : layer ∈ layerNames)
    (s : Stylesheet) (r : Node) :
    ∃ s2, addToLayer s layer r = some s2 ∧
      ∀ name, sheetLayer s2 name =
        if name = layer then setInsert (sheetLayer s name) r
        else sheetLayer s name := by
  fin_cases hl
  all_goals
    refine ⟨_, rfl, fun name => ?_⟩
    by_cases h1 : name = "base" <;> by_cases h2 : name = "defaults" <;>
      by_cases h3 : name = "components" <;> by_cases h4 : name = "utilities" <;>
      by_cases h5 : name = "variants" <;>
      simp_all [sheetLayer]

theorem sheetLayer_empty (name : String) : sheetLayer {} name = [] := by
  by_cases h1 : name = "base" <;> by_cases h2 : name = "defaults" <;>
    by_cases h3 : name = "components" <;> by_cases h4 : name = "utilities" <;>
    by_cases h5 : name = "variants" <;>
    simp_all [sheetLayer]

theorem buildStylesheet_loop : ∀ (l : List RuleEntry) (s0 : Stylesheet),
    (∀ e ∈ l, e.1.layer ∈ layerNames) →
    ∃ s, List.foldlM (fun s (e : RuleEntry) => addToLayer s e.1.layer e.2) s0 l = some s ∧
      ∀ name, sheetLayer s name =
        setUnion (sheetLayer s0 name)
          ((l.filter (fun e => decide (e.1.layer = name))).map (fun e => e.2)) := by
  intro l
  induction l with
  | nil =>
    intro s0 _
    exact ⟨s0, rfl, fun name => by simp [setUnion]⟩
  | cons e rest ih =>
    intro s0 h
    obtain ⟨s1, hs1, hprop⟩ :=
      addToLayer_spec (h e (List.mem_cons_self e rest)) s0 e.2
    obtain ⟨s2, hs2, hprop2⟩ := ih s1 (fun x hx => h x (List.mem_cons_of_mem e hx))
    refine ⟨s2, ?_, ?_⟩
    · rw [List.foldlM_cons, hs1]
      exact hs2
    · intro name
      rw [hprop2 name, hprop name]
      by_cases hn : e.1.layer = name
      · rw [if_pos hn.symm, List.filter_cons, if_pos (by simp [hn]), List.map_cons]
        rfl
      · rw [if_neg (fun e2 => hn e2.symm), List.filter_cons, if_neg (by simp [hn])]

theorem sheetLayer_base (s : Stylesheet) : sheetLayer s "base" = s.base := by
  simp [sheetLayer]

theorem sheetLayer_defaults (s : Stylesheet) : sheetLayer s "defaults" = s.defaults := by
  simp [sheetLayer]

theorem sheetLayer_components (s : Stylesheet) : sheetLayer s "components" = s.components := by
  simp [sheetLayer]

theorem sheetLayer_utilities (s : Stylesheet) : sheetLayer s "utilities" = s.utilities := by
  simp [sheetLayer]

theorem sheetLayer_variants (s : Stylesheet) : sheetLayer s "variants" = s.variants := by
  simp [sheetLayer]

/-- C2: for a Rule Cache whose ordering keys carry one of the five layer
tags, `buildStylesheet` succeeds and returns five sets forming a complete
partition of the cached rules: the union of the five sets is exactly the
set of cached rule nodes, every entry lands in the set named by its layer
tag, and no rule node sits in two different layer sets. The sort
function is the external `context.offsets.sort`, assumed only to permute
its input; rule-node distinctness (`hids`) models the JS object identity
of the freshly generated rule nodes held by the cache's pairs. -/
theorem c2_layer_partition (sortFn : List RuleEntry → List RuleEntry)
    (rules : List RuleEntry)
    (hperm : (sortFn rules).Perm rules)
    (htags : ∀ e ∈ rules, e.1.layer ∈ layerNames)
    (hids : (rules.map (fun e => e.2)).Nodup) :
    ∃ s, buildStylesheet sortFn rules = some s ∧
      (∀ r : Node,
        (r ∈ s.base ∨ r ∈ s.defaults ∨ r ∈ s.components ∨ r ∈ s.utilities ∨
            r ∈ s.variants) ↔
          ∃ e ∈ rules, e.2 = r) ∧
      (∀ e ∈ rules, e.2 ∈ sheetLayer s e.1.layer) ∧
      (∀ (r : Node) (l1 l2 : String),
        r ∈ sheetLayer s l1 → r ∈ sheetLayer s l2 → l1 = l2) := by
  have htags2 : ∀ e ∈ sortFn rules, e.1.layer ∈ layerNames :=
    fun e he => htags e (hperm.mem_iff.mp he)
  obtain ⟨s, hs, hprop⟩ := buildStylesheet_loop (sortFn rules) {} htags2
  have hchar : ∀ (name : String) (r : Node),
      r ∈ sheetLayer s name ↔ ∃ e ∈ sortFn rules, e.1.layer = name ∧ e.2 = r := by
    intro name r
    rw [hprop name, mem_setUnion, sheetLayer_empty]
    simp only [List.mem_map, List.mem_filter, decide_eq_true_eq, List.not_mem_nil, false_or]
    constructor
    · rintro ⟨e, ⟨he, htag⟩, hr⟩
      exact ⟨e, he, htag, hr⟩
    · rintro ⟨e, he, htag, hr⟩
      exact ⟨e, ⟨he, htag⟩, hr⟩
  refine ⟨s, hs, ?_, ?_, ?_⟩
  · intro r
    constructor
    · intro hr
      have hname : ∃ name, r ∈ sheetLayer s name := by
        rcases hr with h | h | h | h | h
        · exact ⟨"base", by rwa [sheetLayer_base]⟩
        · exact ⟨"defaults", by rwa [sheetLayer_defaults]⟩
        · exact ⟨"components", by rwa [sheetLayer_components]⟩
        · exact ⟨"utilities", by rwa [sheetLayer_utilities]⟩
        · exact ⟨"variants", by rwa [sheetLayer_variants]⟩
      obtain ⟨name, hn⟩ := hname
      obtain ⟨e, he, _, hr2⟩ := (hchar name r).mp hn
      exact ⟨e, hperm.mem_iff.mp he, hr2⟩
    · rintro ⟨e, he, rfl⟩
      have he2 : e ∈ sortFn rules := hperm.mem_iff.mpr he
      have hx : e.2 ∈ sheetLayer s e.1.layer := (hchar _ _).mpr ⟨e, he2, rfl, rfl⟩
      have hcases : e.1.layer = "base" ∨ e.1.layer = "defaults" ∨
          e.1.layer = "components" ∨ e.1.layer = "utilities" ∨
          e.1.layer = "variants" := by
        simpa [layerNames] using htags e he
      rcases hcases with h | h | h | h | h
      · exact Or.inl (by rwa [h, sheetLayer_base] at hx)
      · exact Or.inr (Or.inl (by rwa [h, sheetLayer_defaults] at hx))
      · exact Or.inr (Or.inr (Or.inl (by rwa [h, sheetLayer_components] at hx)))
      · exact Or.inr (Or.inr (Or.inr (Or.inl (by rwa [h, sheetLayer_utilities] at hx))))
      · exact Or.inr (Or.inr (Or.inr (Or.inr (by rwa [h, sheetLayer_variants] at hx))))
  · intro e he
    exact (hchar _ _).mpr ⟨e, hperm.mem_iff.mpr he, rfl, rfl⟩
  · intro r l1 l2 h1 h2
    obtain ⟨e1, he1, ht1, hr1⟩ := (hchar l1 r).mp h1
    obtain ⟨e2, he2, ht2, hr2⟩ := (hchar l2 r).mp h2
    have hnodup : ((sortFn rules).map (fun e => e.2)).Nodup :=
      ((hperm.map (fun e => e.2)).nodup_iff).mpr hids
    have hnd : (sortFn rules).Nodup := List.Nodup.of_map _ hnodup
    have hinj := (List.nodup_map_iff_inj_on hnd).mp hnodup
    have heq : e1 = e2 := hinj e1 he1 e2 he2 (hr1.trans hr2.symm)
    rw [← ht1, ← ht2, heq]

/-- Rule node for concrete stylesheet instances. -/
def ruleN1 : Node := { id := 100 }

/-- Second rule node for concrete stylesheet instances. -/
def ruleN2 : Node := { id := 101 }

/-- Two-entry Rule Cache with base and utilities tags. -/
def rulesEx : List RuleEntry := [({ layer := "base" }, ruleN1), ({ layer := "utilities", pos := 1 }, ruleN2)]

/-- Witness for C2 with the identity sort on a concrete two-entry cache. -/
theorem c2_layer_partition_witness :
    ∃ s, buildStylesheet (fun l => l) rulesEx = some s ∧
      (∀ r : Node,
        (r ∈ s.base ∨ r ∈ s.defaults ∨ r ∈ s.components ∨ r ∈ s.utilities ∨
            r ∈ s.variants) ↔
          ∃ e ∈ rulesEx, e.2 = r) ∧
      (∀ e ∈ rulesEx, e.2 ∈ sheetLayer s e.1.layer) ∧
      (∀ (r : Node) (l1 l2 : String),
        r ∈ sheetLayer s l1 → r ∈ sheetLayer s l2 → l1 = l2) :=
  c2_layer_partition (fun l => l) rulesEx (List.Perm.refl _) (by decide) (by decide)

/-! Claim C4: deduplicated, deterministically sorted candidate sequence. -/

theorem lexLe_total : ∀ as bs : List Char, lexLe as bs = true ∨ lexLe bs as = true := by
  intro as
  induction as with
  | nil => intro bs; left; rfl
  | cons a as ih =>
    intro bs
    cases bs with
    | nil => right; rfl
    | cons b bs =>
      rcases lt_trichotomy a b with h | h | h
      · left; simp only [lexLe]; rw [if_pos h]
      · subst h
        have hr : ∀ cs ds, lexLe (a :: cs) (a :: ds) = lexLe cs ds := by
          intro cs ds
          simp only [lexLe]
          rw [if_neg (lt_irrefl a), if_neg (lt_irrefl a)]
        rcases ih bs with h2 | h2
        · left; rw [hr]; exact h2
        · right; rw [hr]; exact h2
      · right; simp only [lexLe]; rw [if_pos h]

theorem lexLe_trans : ∀ as bs cs : List Char,
    lexLe as bs = true → lexLe bs cs = true → lexLe as cs = true := by
  intro as
  induction as with
  | nil => intro bs cs _ _; rfl
  | cons a as ih =>
    intro bs cs h1 h2
    cases bs with
    | nil => simp [lexLe] at h1
    | cons b bs =>
      cases cs with
      | nil => simp [lexLe] at h2
      | cons c cs =>
        rcases lt_trichotomy a b with hab | hab | hab
        · rcases lt_trichotomy b c with hbc | hbc | hbc
          · simp only [lexLe]; rw [if_pos (lt_trans hab hbc)]
          · subst hbc; simp only [lexLe]; rw [if_pos hab]
          · simp only [lexLe] at h2
            rw [if_neg (asymm hbc), if_pos hbc] at h2
            exact absurd h2 (by simp)
        · subst hab
          rcases lt_trichotomy a c with hac | hac | hac
          · simp only [lexLe]; rw [if_pos hac]
          · subst hac
            simp only [lexLe] at h1 h2 ⊢
            rw [if_neg (lt_irrefl a), if_neg (lt_irrefl a)] at h1 h2 ⊢
            exact ih _ _ h1 h2
          · simp only [lexLe] at h2
            rw [if_neg (asymm hac), if_pos hac] at h2
            exact absurd h2 (by simp)
        · simp only [lexLe] at h1
          rw [if_neg (asymm hab), if_pos hab] at h1
          exact absurd h1 (by simp)

theorem lexLe_antisymm : ∀ as bs : List Char,
    lexLe as bs = true → lexLe bs as = true → as = bs := by
  intro as
  induction as with
  | nil =>
    intro bs h1 h2
    cases bs with
    | nil => rfl
    | cons b bs => simp [lexLe] at h2
  | cons a as ih =>
    intro bs h1 h2
    cases bs with
    | nil => simp [lexLe] at h1
    | cons b bs =>
      rcases lt_trichotomy a b with hab | hab | hab
      · simp only [lexLe] at h2
        rw [if_neg (asymm hab), if_pos hab] at h2
        exact absurd h2 (by simp)
      · subst hab
        simp only [lexLe] at h1 h2
        rw [if_neg (lt_irrefl a), if_neg (lt_irrefl a)] at h1 h2
        rw [ih bs h1 h2]
      · simp only [lexLe] at h1
        rw [if_neg (asymm hab), if_pos hab] at h1
        exact absurd h1 (by simp)

/-- Totality of the candidate comparator. -/
def strLeTotal : IsTotal String strLe :=
  ⟨fun a b => lexLe_total a.data b.data⟩

/-- Transitivity of the candidate comparator. -/
def strLeTrans : IsTrans String strLe :=
  ⟨fun a b c => lexLe_trans a.data b.data c.data⟩

/-- Antisymmetry of the candidate comparator. -/
def strLeAntisymm : IsAntisymm String strLe :=
  ⟨fun a b h1 h2 => String.ext (lexLe_antisymm a.data b.data h1 h2)⟩

theorem sortCandidates_sorted (l : List String) :
    List.Sorted strLe (sortCandidates l) :=
  @List.sorted_insertionSort String strLe strLeDec strLeTotal strLeTrans l

theorem sortCandidates_perm (l : List String) : (sortCandidates l).Perm l :=
  @List.perm_insertionSort String strLe strLeDec l

theorem sortCandidates_ext {l1 l2 : List String} (h1 : l1.Nodup) (h2 : l2.Nodup)
    (hm : ∀ x, x ∈ l1 ↔ x ∈ l2) : sortCandidates l1 = sortCandidates l2 := by
  have hperm : l1.Perm l2 := (List.perm_ext_iff_of_nodup h1 h2).mpr hm
  exact @List.eq_of_perm_of_sorted String strLe strLeAntisymm _ _
    ((sortCandidates_perm l1).trans (hperm.trans (sortCandidates_perm l2).symm))
    (sortCandidates_sorted l1) (sortCandidates_sorted l2)

theorem processLine_candidates_step (f : Extractor → String → List String)
    (ex : Extractor) (st : LineScanSt) (raw : List Char) :
    (∀ x ∈ st.candidates, x ∈ (processLine f ex st raw).candidates) ∧
    (st.candidates.Nodup → (processLine f ex st raw).candidates.Nodup) := by
  unfold processLine
  by_cases hseen : String.mk (trimChars raw) ∈ st.seen
  · rw [if_pos hseen]
    exact ⟨fun x hx => hx, fun h => h⟩
  · rw [if_neg hseen]
    cases halook : alookup st.cache (String.mk (trimChars raw)) with
    | some toks =>
      exact ⟨fun x hx => mem_setUnion.mpr (Or.inl hx), fun h => nodup_setUnion h⟩
    | none =>
      exact ⟨fun x hx => mem_setUnion.mpr (Or.inl hx), fun h => nodup_setUnion h⟩

theorem foldl_processLine_candidates (f : Extractor → String → List String)
    (ex : Extractor) :
    ∀ (lines : List (List Char)) (st : LineScanSt),
      (∀ x ∈ st.candidates, x ∈ (lines.foldl (processLine f ex) st).candidates) ∧
      (st.candidates.Nodup → (lines.foldl (processLine f ex) st).candidates.Nodup) := by
  intro lines
  induction lines with
  | nil => intro st; exact ⟨fun _ hx => hx, fun h => h⟩
  | cons l rest ih =>
    intro st
    have hstep := processLine_candidates_step f ex st l
    obtain ⟨ihm, ihn⟩ := ih (processLine f ex st l)
    exact ⟨fun x hx => ihm x (hstep.1 x hx), fun h => ihn (hstep.2 h)⟩

theorem getClassCandidates_candidates (f : Extractor → String → List String)
    (ex : Extractor) (content : String) (st : ScanSt) :
    (∀ x ∈ st.candidates, x ∈ (getClassCandidates f ex content st).candidates) ∧
    (st.candidates.Nodup → (getClassCandidates f ex content st).candidates.Nodup) := by
  unfold getClassCandidates
  exact foldl_processLine_candidates f ex (splitLines content.data)
    ⟨(alookup (ensureCache st.caches ex) ex).getD [], st.candidates, st.seen⟩

theorem foldl_scanItems_candidates (or : Oracles) :
    ∀ (items : List (ContentItem × Transformer × Extractor)) (st : ScanSt),
      (∀ x ∈ st.candidates,
        x ∈ (items.foldl
          (fun st p =>
            getClassCandidates or.extractFn p.2.2 (or.transformFn p.2.1 p.1.content) st)
          st).candidates) ∧
      (st.candidates.Nodup →
        (items.foldl
          (fun st p =>
            getClassCandidates or.extractFn p.2.2 (or.transformFn p.2.1 p.1.content) st)
          st).candidates.Nodup) := by
  intro items
  induction items with
  | nil => intro st; exact ⟨fun _ hx => hx, fun h => h⟩
  | cons p rest ih =>
    intro st
    have hstep := getClassCandidates_candidates or.extractFn p.2.2
      (or.transformFn p.2.1 p.1.content) st
    obtain ⟨ihm, ihn⟩ :=
      ih (getClassCandidates or.extractFn p.2.2 (or.transformFn p.2.1 p.1.content) st)
    exact ⟨fun x hx => ihm x (hstep.1 x hx), fun h => ihn (hstep.2 h)⟩

theorem scanStage_candidates (or : Oracles) (cfg : TailwindConfig)
    (caches : List (Extractor × LineCache)) (pre : List String)
    (changed : List ContentItem) :
    (∀ x, (x ∈ pre ∨ x = NOT_ON_DEMAND) →
      x ∈ (scanStage or cfg caches pre changed).candidates) ∧
    (scanStage or cfg caches pre changed).candidates.Nodup := by
  have heq : scanStage or cfg caches pre changed =
      (routeContent cfg changed).2.foldl
        (fun st p =>
          getClassCandidates or.extractFn p.2.2 (or.transformFn p.2.1 p.1.content) st)
        ⟨if (routeContent cfg changed).1.length > 0 then
            setUnion (setUnion [] (pre ++ [NOT_ON_DEMAND]))
              (or.oxideScan (routeContent cfg changed).1)
          else setUnion [] (pre ++ [NOT_ON_DEMAND]), [], caches⟩ := rfl
  rw [heq]
  have h2 := foldl_scanItems_candidates or (routeContent cfg changed).2
    ⟨if (routeContent cfg changed).1.length > 0 then
        setUnion (setUnion [] (pre ++ [NOT_ON_DEMAND]))
          (or.oxideScan (routeContent cfg changed).1)
      else setUnion [] (pre ++ [NOT_ON_DEMAND]), [], caches⟩
  have hc1m : ∀ x, (x ∈ pre ∨ x = NOT_ON_DEMAND) →
      x ∈ (if (routeContent cfg changed).1.length > 0 then
          setUnion (setUnion [] (pre ++ [NOT_ON_DEMAND]))
            (or.oxideScan (routeContent cfg changed).1)
        else setUnion [] (pre ++ [NOT_ON_DEMAND])) := by
    intro x hx
    have hb : x ∈ setUnion ([] : List String) (pre ++ [NOT_ON_DEMAND]) := by
      refine mem_setUnion.mpr (Or.inr ?_)
      rcases hx with h | rfl
      · exact List.mem_append_left _ h
      · exact List.mem_append_right _ (List.mem_singleton_self _)
    split
    · exact mem_setUnion.mpr (Or.inl hb)
    · exact hb
  have hc1n : (if (routeContent cfg changed).1.length > 0 then
      setUnion (setUnion [] (pre ++ [NOT_ON_DEMAND]))
        (or.oxideScan (routeContent cfg changed).1)
    else setUnion [] (pre ++ [NOT_ON_DEMAND])).Nodup := by
    split
    · exact nodup_setUnion (nodup_setUnion List.nodup_nil)
    · exact nodup_setUnion List.nodup_nil
  exact ⟨fun x hx => h2.1 x (hc1m x hx), h2.2 hc1n⟩

/-- C4: the candidate sequence handed to rule generation is a function of
the candidate set alone — sorting any two duplicate-free lists with the
same membership yields the same sequence — and it is the ascending
lexicographically sorted, duplicate-free sealing of the union of the
pre-existing context candidates, the fixed sentinel and the scanned
candidates (union lower bound and no-duplicates conjuncts); with zero
content items and no pre-existing candidates the candidate set is exactly
the sentinel singleton and the sorted sequence is that singleton. -/
theorem c4_candidate_order (or : Oracles) (cfg : TailwindConfig)
    (caches : List (Extractor × LineCache)) (pre : List String)
    (changed : List ContentItem) :
    (∀ l1 l2 : List String, l1.Nodup → l2.Nodup → (∀ x, x ∈ l1 ↔ x ∈ l2) →
      sortCandidates l1 = sortCandidates l2) ∧
    List.Sorted strLe (sortCandidates (scanStage or cfg caches pre changed).candidates) ∧
    (sortCandidates (scanStage or cfg caches pre changed).candidates).Nodup ∧
    (∀ x, (x ∈ pre ∨ x = NOT_ON_DEMAND) →
      x ∈ sortCandidates (scanStage or cfg caches pre changed).candidates) ∧
    ((scanStage or cfg caches [] []).candidates = [NOT_ON_DEMAND] ∧
      sortCandidates (scanStage or cfg caches [] []).candidates = [NOT_ON_DEMAND]) := by
  have hscan := scanStage_candidates or cfg caches pre changed
  refine ⟨fun l1 l2 h1 h2 hm => sortCandidates_ext h1 h2 hm,
    sortCandidates_sorted _, ?_, ?_, rfl, rfl⟩
  · exact ((sortCandidates_perm _).nodup_iff).mpr hscan.2
  · intro x hx
    exact ((sortCandidates_perm _).mem_iff).mpr (hscan.1 x hx)

/-- Empty configuration for concrete instances. -/
def cfgEmpty : TailwindConfig := {}

/-- Witness for C4: the sort is determined by the set alone at a concrete
pair of lists, and the empty scan yields exactly the sentinel. -/
theorem c4_candidate_order_witness :
    sortCandidates ["b", "a"] = sortCandidates ["a", "b"] ∧
    (scanStage trivialOracles cfgEmpty [] [] []).candidates = [NOT_ON_DEMAND] :=
  ⟨(c4_candidate_order trivialOracles cfgEmpty [] [] []).1 ["b", "a"] ["a", "b"]
      (by decide) (by decide) (fun x => by simp [List.mem_cons]; exact Or.comm),
    (c4_candidate_order trivialOracles cfgEmpty [] [] []).2.2.2.2.1⟩

/-! Shared lemmas about the splice engine. -/

theorem mem_replaceNode {doc : List Node} {t : Nat} {repl : List Node} {n : Node}
    (h : n ∈ replaceNode doc t repl) : (n ∈ doc ∧ n.id ≠ t) ∨ n ∈ repl := by
  unfold replaceNode at h
  rw [List.mem_flatten] at h
  obtain ⟨l, hl, hn⟩ := h
  rw [List.mem_map] at hl
  obtain ⟨m, hm, rfl⟩ := hl
  by_cases hid : m.id = t
  · rw [if_pos hid] at hn
    exact Or.inr hn
  · rw [if_neg hid] at hn
    rw [List.mem_singleton] at hn
    subst hn
    exact Or.inl ⟨hm, hid⟩

theorem cloneNode_id (src : Option Nat) (layer : String) (n : Node) :
    (cloneNode src layer n).id = n.id := rfl

theorem mem_cloneNodes {ns : List Node} {src : Option Nat} {layer : String} {n : Node}
    (h : n ∈ cloneNodes ns src layer) : ∃ n0 ∈ ns, n = cloneNode src layer n0 := by
  unfold cloneNodes at h
  rw [List.mem_map] at h
  obtain ⟨n0, hn0, rfl⟩ := h
  exact ⟨n0, hn0, rfl⟩

theorem mem_spliceLayer {marker : Option Node} {nodes : List Node} {layer : String}
    {doc : List Node} {n : Node} (h : n ∈ spliceLayer marker nodes layer doc) :
    (n ∈ doc ∧ ∀ m, marker = some m → n.id ≠ m.id) ∨
      (marker ≠ none ∧ ∃ n0 ∈ nodes, n.id = n0.id) := by
  cases hm : marker with
  | none =>
    rw [hm] at h
    simp only [spliceLayer] at h
    exact Or.inl ⟨h, fun m hmm => Option.noConfusion hmm⟩
  | some m =>
    rw [hm] at h
    simp only [spliceLayer] at h
    rcases mem_replaceNode h with ⟨hdoc, hne⟩ | hrepl
    · refine Or.inl ⟨hdoc, fun m2 hm2 => ?_⟩
      cases hm2
      exact hne
    · obtain ⟨n0, hn0, rfl⟩ := mem_cloneNodes hrepl
      exact Or.inr ⟨by simp, n0, hn0, rfl⟩

theorem mem_spliceVariants {ln : LayerNodes} {variantNodes doc : List Node} {n : Node}
    (h : n ∈ spliceVariants ln variantNodes doc) :
    (n ∈ doc ∧ ∀ m, ln.variants = some m → n.id ≠ m.id) ∨
      ∃ n0 ∈ variantNodes, n.id = n0.id := by
  cases hm : ln.variants with
  | none =>
    rw [spliceVariants, hm] at h
    by_cases hl : variantNodes.length > 0
    · rw [if_pos hl] at h
      rcases List.mem_append.mp h with hd | hc
      · exact Or.inl ⟨hd, fun m hmm => Option.noConfusion hmm⟩
      · obtain ⟨n0, hn0, rfl⟩ := mem_cloneNodes hc
        exact Or.inr ⟨n0, hn0, rfl⟩
    · rw [if_neg hl] at h
      exact Or.inl ⟨h, fun m hmm => Option.noConfusion hmm⟩
  | some m =>
    rw [spliceVariants, hm] at h
    rcases mem_replaceNode h with ⟨hdoc, hne⟩ | hrepl
    · refine Or.inl ⟨hdoc, fun m2 hm2 => ?_⟩
      cases hm2
      exact hne
    · obtain ⟨n0, hn0, rfl⟩ := mem_cloneNodes hrepl
      exact Or.inr ⟨n0, hn0, rfl⟩

theorem mem_layerCleanup {doc : List Node} {n : Node} (h : n ∈ layerCleanup doc) :
    n ∈ doc :=
  List.mem_of_mem_filter h

theorem spliceStage_doc (ln : LayerNodes) (sheet : Stylesheet) (root : List Node) :
    (spliceStage ln sheet root).doc =
      layerCleanup
        (spliceVariants ln (sheet.variants.filter (keepVariantNode ln))
          (spliceLayer ln.utilities sheet.utilities "utilities"
            (spliceLayer ln.components sheet.components "components"
              (spliceLayer ln.base (sheet.base ++ sheet.defaults) "base" root)))) := rfl

theorem spliceStage_warnings (ln : LayerNodes) (sheet : Stylesheet) (root : List Node) :
    (spliceStage ln sheet root).warnings =
      utilitiesWarning ln sheet (sheet.variants.filter (keepVariantNode ln)) := rfl

theorem mem_spliceStage_cases {ln : LayerNodes} {sheet : Stylesheet} {root : List Node}
    {n : Node} (h : n ∈ (spliceStage ln sheet root).doc) :
    (n ∈ root ∧
      (∀ m, ln.base = some m → n.id ≠ m.id) ∧
      (∀ m, ln.components = some m → n.id ≠ m.id) ∧
      (∀ m, ln.utilities = some m → n.id ≠ m.id) ∧
      (∀ m, ln.variants = some m → n.id ≠ m.id)) ∨
    (ln.base ≠ none ∧ ∃ n0 ∈ sheet.base ++ sheet.defaults, n.id = n0.id) ∨
    (ln.components ≠ none ∧ ∃ n0 ∈ sheet.components, n.id = n0.id) ∨
    (ln.utilities ≠ none ∧ ∃ n0 ∈ sheet.utilities, n.id = n0.id) ∨
    (∃ n0 ∈ sheet.variants, n.id = n0.id) := by
  rw [spliceStage_doc] at h
  have h4 := mem_layerCleanup h
  rcases mem_spliceVariants h4 with ⟨h3, hv⟩ | ⟨n0, hn0, hid⟩
  · rcases mem_spliceLayer h3 with ⟨h2, hu⟩ | ⟨hu, n0, hn0, hid⟩
    · rcases mem_spliceLayer h2 with ⟨h1, hc⟩ | ⟨hc, n0, hn0, hid⟩
      · rcases mem_spliceLayer h1 with ⟨h0, hb⟩ | ⟨hb, n0, hn0, hid⟩
        · exact Or.inl ⟨h0, hb, hc, hu, hv⟩
        · exact Or.inr (Or.inl ⟨hb, n0, hn0, hid⟩)
      · exact Or.inr (Or.inr (Or.inl ⟨hc, n0, hn0, hid⟩))
    · exact Or.inr (Or.inr (Or.inr (Or.inl ⟨hu, n0, hn0, hid⟩)))
  · exact Or.inr (Or.inr (Or.inr (Or.inr ⟨n0, List.mem_of_mem_filter hn0, hid⟩)))

/-! Claim C6: the empty-utilities diagnostic. -/

/-- C6: in the splice engine, exactly one `content-problems` warning is
emitted precisely when a utilities marker was found, the utilities layer
set is empty, and no surviving variant node records the utilities parent
layer; at most one warning is ever emitted, none without a utilities
marker, and the warning is diagnostic only: even in the warning
situation the utilities marker node is removed from the output document
(replaced by the — possibly empty — cloned utilities sequence) and the
splice produces a document rather than failing. -/
theorem c6_content_problems_warning (ln : LayerNodes) (sheet : Stylesheet)
    (root : List Node) :
    ((spliceStage ln sheet root).warnings.count "content-problems" = 1 ↔
      (ln.utilities.isSome = true ∧ sheet.utilities = [] ∧
        ∀ n ∈ sheet.variants.filter (keepVariantNode ln),
          ¬ n.parentLayer = some "utilities")) ∧
    ((spliceStage ln sheet root).warnings.count "content-problems" = 0 ∨
      (spliceStage ln sheet root).warnings.count "content-problems" = 1) ∧
    (ln.utilities = none → (spliceStage ln sheet root).warnings = []) ∧
    (∀ m : Node, ln.utilities = some m →
      (∀ n0 ∈ sheet.base ++ sheet.defaults ++ sheet.components ++ sheet.utilities ++
          sheet.variants, n0.id ≠ m.id) →
      ∀ n ∈ (spliceStage ln sheet root).doc, n.id ≠ m.id) := by
  have hcond : (ln.utilities.isSome = true ∧ sheet.utilities.length = 0 ∧
      (sheet.variants.filter (keepVariantNode ln)).any
        (fun n => n.parentLayer == some "utilities") = false) ↔
      (ln.utilities.isSome = true ∧ sheet.utilities = [] ∧
        ∀ n ∈ sheet.variants.filter (keepVariantNode ln),
          ¬ n.parentLayer = some "utilities") := by
    constructor
    · rintro ⟨h1, h2, h3⟩
      refine ⟨h1, List.length_eq_zero.mp h2, fun n hn => ?_⟩
      simpa using List.any_eq_false.mp h3 n hn
    · rintro ⟨h1, h2, h3⟩
      refine ⟨h1, by simp [h2], List.any_eq_false.mpr fun n hn => ?_⟩
      simpa using h3 n hn
  refine ⟨?_, ?_, ?_, ?_⟩
  · rw [spliceStage_warnings, utilitiesWarning]
    by_cases hc : (ln.utilities.isSome = true ∧ sheet.utilities.length = 0 ∧
        (sheet.variants.filter (keepVariantNode ln)).any
          (fun n => n.parentLayer == some "utilities") = false)
    · rw [if_pos hc]
      exact iff_of_true rfl (hcond.mp hc)
    · rw [if_neg hc]
      constructor
      · intro h0
        exact absurd h0 (by simp [List.count_nil])
      · intro hr
        exact absurd (hcond.mpr hr) hc
  · rw [spliceStage_warnings, utilitiesWarning]
    by_cases hc : (ln.utilities.isSome = true ∧ sheet.utilities.length = 0 ∧
        (sheet.variants.filter (keepVariantNode ln)).any
          (fun n => n.parentLayer == some "utilities") = false)
    · rw [if_pos hc]
      right
      simp [List.count_singleton]
    · rw [if_neg hc]
      left
      simp [List.count_nil]
  · intro hnone
    rw [spliceStage_warnings, utilitiesWarning, if_neg]
    rintro ⟨h1, _, _⟩
    rw [hnone] at h1
    exact absurd h1 (by simp)
  · intro m hm hfresh n hn
    rcases mem_spliceStage_cases hn with ⟨_, _, _, hu, _⟩ | ⟨_, n0, hn0, hid⟩ |
        ⟨_, n0, hn0, hid⟩ | ⟨_, n0, hn0, hid⟩ | ⟨n0, hn0, hid⟩
    · exact hu m hm
    · rw [hid]
      exact hfresh n0 (by simp only [List.append_assoc, List.mem_append] at *; tauto)
    · rw [hid]
      exact hfresh n0 (by simp only [List.append_assoc, List.mem_append] at *; tauto)
    · rw [hid]
      exact hfresh n0 (by simp only [List.append_assoc, List.mem_append] at *; tauto)
    · rw [hid]
      exact hfresh n0 (by simp only [List.append_assoc, List.mem_append] at *; tauto)

/-- Utilities marker node for concrete splice instances. -/
def mUtil : Node := { id := 30, atRule := true, name := "tailwind", params := "utilities" }

/-- Marker set holding only the concrete utilities marker. -/
def lnUtilM : LayerNodes := { utilities := some mUtil }

/-- Witness for C6: with a utilities marker, an empty stylesheet and a
one-node document holding the marker, the theorem instantiates; the
warning fires and the marker is gone from the output. -/
theorem c6_content_problems_warning_witness :
    (((spliceStage lnUtilM {} [mUtil]).warnings.count "content-problems" = 1 ↔
      (lnUtilM.utilities.isSome = true ∧ ({} : Stylesheet).utilities = [] ∧
        ∀ n ∈ ({} : Stylesheet).variants.filter (keepVariantNode lnUtilM),
          ¬ n.parentLayer = some "utilities")) ∧
    (((spliceStage lnUtilM {} [mUtil]).warnings.count "content-problems" = 0 ∨
      (spliceStage lnUtilM {} [mUtil]).warnings.count "content-problems" = 1)) ∧
    (lnUtilM.utilities = none → (spliceStage lnUtilM {} [mUtil]).warnings = []) ∧
    (∀ m : Node, lnUtilM.utilities = some m →
      (∀ n0 ∈ ({} : Stylesheet).base ++ ({} : Stylesheet).defaults ++
          ({} : Stylesheet).components ++ ({} : Stylesheet).utilities ++
          ({} : Stylesheet).variants, n0.id ≠ m.id) →
      ∀ n ∈ (spliceStage lnUtilM {} [mUtil]).doc, n.id ≠ m.id)) ∧
    (spliceStage lnUtilM {} [mUtil]).warnings = ["content-problems"] ∧
    (spliceStage lnUtilM {} [mUtil]).doc = [] :=
  ⟨c6_content_problems_warning lnUtilM {} [mUtil], by decide, by decide⟩

/-! Claim C9: base splice receives base nodes followed by defaults nodes;
without a base marker the defaults are not emitted at all. -/

theorem replaceNode_append (a b : List Node) (t : Nat) (repl : List Node) :
    replaceNode (a ++ b) t repl = replaceNode a t repl ++ replaceNode b t repl := by
  unfold replaceNode
  rw [List.map_append, List.flatten_append]

theorem replaceNode_of_not_mem {doc : List Node} {t : Nat} {repl : List Node}
    (h : ∀ n ∈ doc, n.id ≠ t) : replaceNode doc t repl = doc := by
  induction doc with
  | nil => rfl
  | cons n rest ih =>
    have hn : n.id ≠ t := h n (List.mem_cons_self n rest)
    have hrest := ih (fun m hm => h m (List.mem_cons_of_mem n hm))
    unfold replaceNode at hrest ⊢
    rw [List.map_cons, List.flatten_cons, if_neg hn, hrest]
    rfl

theorem replaceNode_at_marker (pre post repl : List Node) (m : Node) :
    replaceNode (pre ++ m :: post) m.id repl =
      replaceNode pre m.id repl ++ repl ++ replaceNode post m.id repl := by
  rw [replaceNode_append]
  have hcons : replaceNode (m :: post) m.id repl = repl ++ replaceNode post m.id repl := by
    unfold replaceNode
    rw [List.map_cons, List.flatten_cons, if_pos rfl]
  rw [hcons, List.append_assoc]

theorem spliceLayer_segment {marker : Option Node} {nodes seg : List Node}
    {layer : String} {A B doc : List Node} (hdoc : doc = A ++ seg ++ B)
    (hseg : ∀ m, marker = some m → ∀ n ∈ seg, n.id ≠ m.id) :
    ∃ A2 B2, spliceLayer marker nodes layer doc = A2 ++ seg ++ B2 := by
  cases hm : marker with
  | none =>
    refine ⟨A, B, ?_⟩
    simp only [spliceLayer]
    exact hdoc
  | some m =>
    subst hdoc
    refine ⟨replaceNode A m.id (cloneNodes nodes m.source layer),
      replaceNode B m.id (cloneNodes nodes m.source layer), ?_⟩
    simp only [spliceLayer]
    rw [replaceNode_append, replaceNode_append, replaceNode_of_not_mem (hseg m hm)]

theorem spliceVariants_segment {ln : LayerNodes} {variantNodes seg : List Node}
    {A B doc : List Node} (hdoc : doc = A ++ seg ++ B)
    (hseg : ∀ m, ln.variants = some m → ∀ n ∈ seg, n.id ≠ m.id) :
    ∃ A2 B2, spliceVariants ln variantNodes doc = A2 ++ seg ++ B2 := by
  cases hm : ln.variants with
  | none =>
    subst hdoc
    by_cases hl : variantNodes.length > 0
    · refine ⟨A, B ++ cloneNodes variantNodes none "variants", ?_⟩
      simp only [spliceVariants, hm]
      rw [if_pos hl, List.append_assoc]
    · refine ⟨A, B, ?_⟩
      simp only [spliceVariants, hm]
      rw [if_neg hl]
  | some m =>
    subst hdoc
    refine ⟨replaceNode A m.id (cloneNodes variantNodes m.source "variants"),
      replaceNode B m.id (cloneNodes variantNodes m.source "variants"), ?_⟩
    simp only [spliceVariants, hm]
    rw [replaceNode_append, replaceNode_append, replaceNode_of_not_mem (hseg m hm)]

theorem layerCleanup_segment {A B seg doc : List Node} (hdoc : doc = A ++ seg ++ B)
    (hseg : ∀ n ∈ seg, ¬(n.atRule = true ∧ n.name = "layer" ∧ n.params ∈ layerKeys)) :
    ∃ A2 B2, layerCleanup doc = A2 ++ seg ++ B2 := by
  subst hdoc
  refine ⟨layerCleanup A, layerCleanup B, ?_⟩
  unfold layerCleanup
  rw [List.filter_append, List.filter_append]
  have hkeep : List.filter
      (fun n => !(n.atRule && n.name == "layer" && decide (n.params ∈ layerKeys))) seg
      = seg := by
    rw [List.filter_eq_self]
    intro n hn
    have := hseg n hn
    simp only [Bool.not_eq_true', Bool.and_eq_true, beq_iff_eq, decide_eq_true_eq] at *
    by_cases h1 : n.atRule = true
    · by_cases h2 : n.name = "layer"
      · by_cases h3 : n.params ∈ layerKeys
        · exact absurd ⟨h1, h2, h3⟩ this
        · simp [h1, h2, h3]
      · simp [h1, h2]
    · simp [h1]
  rw [hkeep]

/-- C9: when a base marker is present, the node sequence spliced at its
position is the cloned base layer nodes followed by the cloned defaults
layer nodes, in that concatenation order, and that segment survives to
the output document; when no base marker is present the defaults layer
nodes are not emitted anywhere in the output document (the defaults
layer has no marker of its own). Freshness hypotheses state that the
relevant rule-node identities do not collide with other markers or
document nodes and that rule nodes are not `@layer` directives. -/
theorem c9_base_defaults_splice (ln : LayerNodes) (sheet : Stylesheet)
    (root : List Node) :
    (∀ m : Node, ln.base = some m → ∀ pre post : List Node,
      root = pre ++ m :: post →
      (∀ n0 ∈ sheet.base ++ sheet.defaults,
        (∀ mc, ln.components = some mc → n0.id ≠ mc.id) ∧
        (∀ mu, ln.utilities = some mu → n0.id ≠ mu.id) ∧
        (∀ mv, ln.variants = some mv → n0.id ≠ mv.id) ∧
        ¬(n0.atRule = true ∧ n0.name = "layer" ∧ n0.params ∈ layerKeys)) →
      List.IsInfix (cloneNodes (sheet.base ++ sheet.defaults) m.source "base")
        (spliceStage ln sheet root).doc) ∧
    (ln.base = none →
      (∀ d ∈ sheet.defaults,
        (∀ n ∈ root, d.id ≠ n.id) ∧
        (∀ n0 ∈ sheet.components ++ sheet.utilities ++ sheet.variants, d.id ≠ n0.id)) →
      ∀ n ∈ (spliceStage ln sheet root).doc, ∀ d ∈ sheet.defaults, n.id ≠ d.id) := by
  constructor
  · intro m hbase pre post hroot hfresh
    set seg := cloneNodes (sheet.base ++ sheet.defaults) m.source "base" with hsegdef
    have hsegmem : ∀ n ∈ seg, ∃ n0 ∈ sheet.base ++ sheet.defaults, n.id = n0.id ∧
        n.atRule = n0.atRule ∧ n.name = n0.name ∧ n.params = n0.params := by
      intro n hn
      obtain ⟨n0, hn0, rfl⟩ := mem_cloneNodes hn
      exact ⟨n0, hn0, rfl, rfl, rfl, rfl⟩
    have h1 : spliceLayer ln.base (sheet.base ++ sheet.defaults) "base" root =
        replaceNode pre m.id seg ++ seg ++ replaceNode post m.id seg := by
      rw [hbase]
      simp only [spliceLayer]
      rw [hroot, ← hsegdef, replaceNode_at_marker]
    obtain ⟨A2, B2, h2⟩ := spliceLayer_segment h1 (fun mc hmc n hn => by
      obtain ⟨n0, hn0, hid, _⟩ := hsegmem n hn
      rw [hid]
      exact ((hfresh n0 hn0).1) mc hmc)
    obtain ⟨A3, B3, h3⟩ := spliceLayer_segment h2 (fun mu hmu n hn => by
      obtain ⟨n0, hn0, hid, _⟩ := hsegmem n hn
      rw [hid]
      exact ((hfresh n0 hn0).2.1) mu hmu)
    obtain ⟨A4, B4, h4⟩ := spliceVariants_segment h3 (fun mv hmv n hn => by
      obtain ⟨n0, hn0, hid, _⟩ := hsegmem n hn
      rw [hid]
      exact ((hfresh n0 hn0).2.2.1) mv hmv)
    obtain ⟨A5, B5, h5⟩ := layerCleanup_segment h4 (fun n hn => by
      obtain ⟨n0, hn0, _, ha, hna, hp⟩ := hsegmem n hn
      rw [ha, hna, hp]
      exact (hfresh n0 hn0).2.2.2)
    rw [spliceStage_doc, h5]
    exact ⟨A5, B5, rfl⟩
  · intro hbase hfresh n hn d hd
    rcases mem_spliceStage_cases hn with ⟨hroot, _, _, _, _⟩ | ⟨hb, _⟩ |
        ⟨_, n0, hn0, hid⟩ | ⟨_, n0, hn0, hid⟩ | ⟨n0, hn0, hid⟩
    · exact fun he => ((hfresh d hd).1 n hroot) he.symm
    · exact absurd hbase hb
    · rw [hid]
      exact fun he => ((hfresh d hd).2 n0 (by simp [List.mem_append, hn0])) he.symm
    · rw [hid]
      exact fun he => ((hfresh d hd).2 n0 (by simp [List.mem_append, hn0])) he.symm
    · rw [hid]
      exact fun he => ((hfresh d hd).2 n0 (by simp [List.mem_append, hn0])) he.symm

/-- Base marker node for concrete splice instances. -/
def mBase : Node := { id := 31, atRule := true, name := "tailwind", params := "base" }

/-- Marker set holding only the concrete base marker. -/
def lnBaseM : LayerNodes := { base := some mBase }

/-- Stylesheet with one base rule and one defaults rule. -/
def sheetBD : Stylesheet := { base := [ruleN1], defaults := [ruleN2] }

/-- Witness for C9: with a base marker and one rule in each of the base
and defaults layers, the cloned base-then-defaults segment is an infix of
the spliced document. -/
theorem c9_base_defaults_splice_witness :
    List.IsInfix (cloneNodes (sheetBD.base ++ sheetBD.defaults) mBase.source "base")
      (spliceStage lnBaseM sheetBD [mBase]).doc :=
  (c9_base_defaults_splice lnBaseM sheetBD [mBase]).1 mBase rfl [] []
    rfl (by decide)

/-! Claim C5: memoized line extraction. The claim asserts the seen set is
local to one `getClassCandidates` invocation; the implementation creates
it once per build pass (line 147) and shares it across all content items
of the pass. -/

/-- Version of the regex scan loop following the claim's wording that the
seen set is "local to one invocation": the seen set is reset before every
content item, so a trimmed line is processed once per item. Written only
to compare the claim's reading against the implementation, whose seen set
is created once per pass and threaded through all items. -/
def scanStageLocalSeen (or : Oracles) (cfg : TailwindConfig)
    (caches : List (Extractor × LineCache)) (preCandidates : List String)
    (changedContent : List ContentItem) : ScanSt :=
  let candidates := setUnion [] (preCandidates ++ [NOT_ON_DEMAND])
  let routed := routeContent cfg changedContent
  let candidates :=
    if routed.1.length > 0 then setUnion candidates (or.oxideScan routed.1)
    else candidates
  routed.2.foldl
    (fun st p =>
      getClassCandidates or.extractFn p.2.2 (or.transformFn p.2.1 p.1.content)
        { st with seen := [] })
    ⟨candidates, [], caches⟩

/-- Extractor oracle distinguishing the default extractor from a custom
one on the line "x". -/
def extract5 : Extractor → String → List String := fun e l =>
  match e with
  | .markedDefault => if l = "x" then ["tokA"] else []
  | .custom _ => if l = "x" then ["tokB"] else []
  | .rawDefault => []

/-- Oracle assignment for the C5 counterexample. -/
def oracles5 : Oracles :=
  { oxideScan := fun _ => [], extractFn := extract5, transformFn := fun _ c => c,
    ruleOf := fun _ => [], offsetsSort := fun l => l }

/-- Configuration with a custom extractor registered for extension "b". -/
def cfg5 : TailwindConfig := { extract := [("b", 7)] }

/-- Content item with extension "a" (default extractor). -/
def item5a : ContentItem := { content := "x", extension := "a" }

/-- Content item with extension "b" (custom extractor). -/
def item5b : ContentItem := { content := "x", extension := "b" }

/-- Counterexample to C5: the seen set is NOT local to one invocation.
Two content items both consist of the single line "x" but resolve
different extractors; because the pass shares one seen set, the second
item's line is skipped before its extractor's cache is even consulted, so
the custom extractor's token "tokB" never reaches the candidate set —
under the claim's once-per-item reading (the local-seen variant) it
would. -/
theorem c5_counterexample :
    "tokB" ∉ (scanStage oracles5 cfg5 [] [] [item5a, item5b]).candidates ∧
    "tokB" ∈ (scanStageLocalSeen oracles5 cfg5 [] [] [item5a, item5b]).candidates ∧
    (scanStage oracles5 cfg5 [] [] [item5a, item5b]).candidates = ["*", "tokA"] := by
  decide

theorem processLine_seen_mono (f : Extractor → String → List String) (ex : Extractor)
    (st : LineScanSt) (raw : List Char) :
    ∀ x ∈ st.seen, x ∈ (processLine f ex st raw).seen := by
  intro x hx
  unfold processLine
  by_cases hseen : String.mk (trimChars raw) ∈ st.seen
  · rw [if_pos hseen]
    exact hx
  · rw [if_neg hseen]
    cases alookup st.cache (String.mk (trimChars raw)) with
    | some toks => exact mem_setInsert.mpr (Or.inl hx)
    | none => exact mem_setInsert.mpr (Or.inl hx)

theorem processLine_seen_self (f : Extractor → String → List String) (ex : Extractor)
    (st : LineScanSt) (raw : List Char) :
    String.mk (trimChars raw) ∈ (processLine f ex st raw).seen := by
  unfold processLine
  by_cases hseen : String.mk (trimChars raw) ∈ st.seen
  · rw [if_pos hseen]
    exact hseen
  · rw [if_neg hseen]
    cases alookup st.cache (String.mk (trimChars raw)) with
    | some toks => exact mem_setInsert.mpr (Or.inr rfl)
    | none => exact mem_setInsert.mpr (Or.inr rfl)

theorem foldl_processLine_seen (f : Extractor → String → List String) (ex : Extractor) :
    ∀ (lines : List (List Char)) (st : LineScanSt),
      (∀ x ∈ st.seen, x ∈ (lines.foldl (processLine f ex) st).seen) ∧
      (∀ cs ∈ lines,
        String.mk (trimChars cs) ∈ (lines.foldl (processLine f ex) st).seen) := by
  intro lines
  induction lines with
  | nil => intro st; exact ⟨fun _ hx => hx, fun _ h => absurd h (List.not_mem_nil _)⟩
  | cons l rest ih =>
    intro st
    obtain ⟨ihm, ihc⟩ := ih (processLine f ex st l)
    refine ⟨fun x hx => ihm x (processLine_seen_mono f ex st l x hx), fun cs hcs => ?_⟩
    rcases List.mem_cons.mp hcs with rfl | hcs2
    · exact ihm _ (processLine_seen_self f ex st cs)
    · exact ihc cs hcs2

theorem getClassCandidates_seen (f : Extractor → String → List String)
    (ex : Extractor) (content : String) (stt : ScanSt) :
    (∀ cs ∈ splitLines content.data,
      String.mk (trimChars cs) ∈ (getClassCandidates f ex content stt).seen) ∧
    (∀ x ∈ stt.seen, x ∈ (getClassCandidates f ex content stt).seen) := by
  unfold getClassCandidates
  have h := foldl_processLine_seen f ex (splitLines content.data)
    ⟨(alookup (ensureCache stt.caches ex) ex).getD [], stt.candidates, stt.seen⟩
  exact ⟨h.2, h.1⟩

/-- C5 amended: the blob is split into lines and each line trimmed; a
trimmed line already in the seen set is skipped entirely (the state is
unchanged); on a cache hit the cached token set is unioned into the
candidates with the cache untouched; on a miss the extractor runs on the
trimmed line, the noise token `"!*"` is dropped, and the deduplicated
token set is inserted into both the per-extractor cache and the
candidates. The seen set, however, is shared across all content items of
one build pass rather than local to one invocation: every processed line
stays in the seen set across invocations (fourth and fifth conjuncts), so
with the skip rule a trimmed line occurring in two different content
items of one pass is processed only at its first occurrence — extracted
at most once per pass, not once per item. -/
theorem c5_memoized_extraction (f : Extractor → String → List String)
    (ex : Extractor) (st : LineScanSt) (raw : List Char) :
    (String.mk (trimChars raw) ∈ st.seen → processLine f ex st raw = st) ∧
    (String.mk (trimChars raw) ∉ st.seen →
      ∀ toks, alookup st.cache (String.mk (trimChars raw)) = some toks →
        processLine f ex st raw =
          { cache := st.cache, candidates := setUnion st.candidates toks,
            seen := setInsert st.seen (String.mk (trimChars raw)) }) ∧
    (String.mk (trimChars raw) ∉ st.seen →
      alookup st.cache (String.mk (trimChars raw)) = none →
        processLine f ex st raw =
          { cache := (String.mk (trimChars raw),
                ((f ex (String.mk (trimChars raw))).filter (fun s => s ≠ "!*")).dedup)
              :: st.cache,
            candidates := setUnion st.candidates
              ((f ex (String.mk (trimChars raw))).filter (fun s => s ≠ "!*")).dedup,
            seen := setInsert st.seen (String.mk (trimChars raw)) }) ∧
    (∀ (content : String) (stt : ScanSt), ∀ cs ∈ splitLines content.data,
      String.mk (trimChars cs) ∈ (getClassCandidates f ex content stt).seen) ∧
    (∀ (content : String) (stt : ScanSt), ∀ x ∈ stt.seen,
      x ∈ (getClassCandidates f ex content stt).seen) := by
  refine ⟨?_, ?_, ?_, ?_, ?_⟩
  · intro h
    unfold processLine
    rw [if_pos h]
  · intro hn toks htoks
    unfold processLine
    rw [if_neg hn, htoks]
  · intro hn htoks
    unfold processLine
    rw [if_neg hn, htoks]
  · intro content stt
    exact (getClassCandidates_seen f ex content stt).1
  · intro content stt
    exact (getClassCandidates_seen f ex content stt).2

/-- Line-scan state whose seen set already holds the line "x". -/
def lst5 : LineScanSt := { cache := [], candidates := [], seen := ["x"] }

/-- Witness for the amended C5: a line whose trimmed form is already seen
is skipped, and a fresh line is extracted on a cache miss. -/
theorem c5_memoized_extraction_witness :
    (String.mk (trimChars "x".data) ∈ lst5.seen ∧
      processLine extract5 Extractor.markedDefault lst5 "x".data = lst5) ∧
    (String.mk (trimChars "y".data) ∉ lst5.seen ∧
      processLine extract5 Extractor.markedDefault lst5 "y".data =
        { cache := [("y", [])], candidates := [], seen := ["x", "y"] }) :=
  ⟨⟨by decide,
      (c5_memoized_extraction extract5 Extractor.markedDefault lst5 "x".data).1
        (by decide)⟩,
    ⟨by decide, by
      have h := (c5_memoized_extraction extract5 Extractor.markedDefault lst5
        "y".data).2.2.1 (by decide) (by decide)
      rw [h]
      decide⟩⟩

end TW
